import Mathlib

/-!
Verification of the course data-access module of the Web-design project.

The module exists in two variants sharing one contract:
  - a local-storage-backed variant (`CourseSystem` below);
  - a remote-API-backed variant (`Remote` below).

JavaScript is embedded shallowly: machine values that can be a number or a
string (user ids, course references inside a user record) are modelled by
the sum type `JsVal`, whose decidable equality coincides with JavaScript
strict equality on those values; truthiness and String() conversion are
made explicit.  Stateful functions are modelled by explicit state passing
over the catalog (an ordered list of courses).  JavaScript's
`Array.prototype.sort`, stable by specification, is modelled by
`List.mergeSort`.
-/

/-- A JavaScript value as it occurs in this module: user ids and the
`categories` field can be null, booleans, numbers, strings or arrays of
strings. -/
inductive JsVal where
  | null
  | bool (b : Bool)
  | num (n : Int)
  | str (s : String)
  | arr (xs : List String)
deriving Repr, DecidableEq

/-- JavaScript truthiness: null, false, 0 and the empty string are falsy;
arrays are objects and are always truthy, even when empty. -/
def JsVal.truthy : JsVal → Bool
  | .null => false
  | .bool b => b
  | .num n => n != 0
  | .str s => s != ""
  | .arr _ => true

/-- The JavaScript conversion String(v). Integers print in decimal,
arrays join their elements with commas. -/
def JsVal.toJsString : JsVal → String
  | .null => "null"
  | .bool b => if b then "true" else "false"
  | .num n => toString n
  | .str s => s
  | .arr xs => String.intercalate "," xs

/-- One entry of a course's students array: a pair of userId and
enrollment timestamp (an ISO date string). -/
abbrev Student := JsVal × String

/-- A course record, as built by createCourse.  description and instructor
are optional (absent models the JavaScript undefined); categories is kept
as a raw JS value because editCourse can overwrite it with a falsy
non-array value. -/
structure Course where
  id : Nat
  title : String
  description : Option String := none
  instructor : Option String := none
  students : List Student := []
  categories : JsVal := .arr []
  visits : Nat := 0
  price : Nat := 0
  duration : String := "N/A"
deriving Repr, DecidableEq

instance : Inhabited Course := ⟨{ id := 0, title := "" }⟩

/-- The argument of createCourse / editCourse: a record whose fields are
all optional (an absent field models a key that is not present on the
JavaScript object, so the spread does not overwrite it). -/
structure CourseInput where
  id : Option Nat := none
  title : Option String := none
  description : Option String := none
  instructor : Option String := none
  students : Option (List Student) := none
  categories : Option JsVal := none
  visits : Option Nat := none
  price : Option Nat := none
  duration : Option String := none
deriving Repr, DecidableEq

/-- Truthiness of the `title` field: `!course.title` rejects both an
absent title and the empty string. -/
def CourseInput.titleTruthy (c : CourseInput) : Bool :=
  match c.title with
  | some t => t != ""
  | none => false

/-- The object literal built by createCourse:
the `course` argument is spread first, then id overwritten with the fresh id and the
optional fields defaulted with `||`.  `course.students || []` keeps any
provided array (arrays are truthy); `course.categories || []` keeps any
truthy value, array or not; `course.visits || 0` and `course.price || 0`
agree with Option.getD on naturals; `course.duration || "N/A"` replaces
both an absent and an empty-string duration. -/
def buildCourse (course : CourseInput) (newId : Nat) : Course :=
  { id := newId
    title := course.title.getD ""
    description := course.description
    instructor := course.instructor
    students := course.students.getD []
    categories :=
      match course.categories with
      | some v => if v.truthy then v else .arr []
      | none => .arr []
    visits := course.visits.getD 0
    price := course.price.getD 0
    duration :=
      match course.duration with
      | some d => if d = "" then "N/A" else d
      | none => "N/A" }

/-- The shallow merge of editCourse: every field
present on `data` overwrites the corresponding course field. -/
def applyPatch (c : Course) (data : CourseInput) : Course :=
  { id := data.id.getD c.id
    title := data.title.getD c.title
    description := match data.description with
      | some d => some d
      | none => c.description
    instructor := match data.instructor with
      | some i => some i
      | none => c.instructor
    students := data.students.getD c.students
    categories := match data.categories with
      | some v => v
      | none => c.categories
    visits := data.visits.getD c.visits
    price := data.price.getD c.price
    duration := data.duration.getD c.duration }

/-- First-occurrence de-duplication: spreading a JavaScript Set built
from a list keeps the first occurrence of each element, in order. -/
def dedupFirstAux (seen : List String) : List String → List String
  | [] => []
  | x :: xs =>
      if x ∈ seen then dedupFirstAux seen xs
      else x :: dedupFirstAux (x :: seen) xs

/-- Spread of a Set built from l. -/
def dedupFirst (l : List String) : List String := dedupFirstAux [] l

namespace CourseSystem

/-- `_findCourseIndex`: index of the first course whose id strictly
equals the argument; JavaScript's -1 is modelled by none. -/
def findCourseIndex (id : Nat) (courseList : List Course) : Option Nat :=
  courseList.findIdx? (fun c => c.id == id)

/-- `_generateUniqueCourseId`: 1 on an empty catalog, otherwise
`Math.max(...ids) + 1`. -/
def generateUniqueCourseId (courseList : List Course) : Nat :=
  if courseList.isEmpty then 1
  else (courseList.map (fun c => c.id)).foldl max 0 + 1

/-- createCourse of the local-storage variant: reject a null argument or
a falsy title, otherwise append the built record and return it. -/
def createCourse (course? : Option CourseInput) (courseList : List Course) :
    Option Course × List Course :=
  match course? with
  | none => (none, courseList)
  | some course =>
      if !course.titleTruthy then (none, courseList)
      else
        let newCourse := buildCourse course (generateUniqueCourseId courseList)
        (some newCourse, courseList ++ [newCourse])

/-- editCourse: null when the id is unknown; otherwise, when
`data.categories` is truthy it is replaced by the first-occurrence union
of the old categories with the new ones (a non-array truthy value
contributes nothing, `Array.isArray` sending it to `[]`), when it is
falsy the branch is skipped and the raw falsy value survives into the
shallow merge.  The old value is read as `course.categories || []`: a
falsy old value contributes the empty list.  (A truthy non-array old
value would make the JavaScript spread throw; it is unreachable from any
catalog whose categories were built by this module, and is mapped to the
empty list here.) -/
def editCourse (id : Nat) (data : CourseInput) (courseList : List Course) :
    Option Course × List Course :=
  match findCourseIndex id courseList with
  | none => (none, courseList)
  | some idx =>
      let old := courseList.getD idx default
      let data1 : CourseInput :=
        match data.categories with
        | some v =>
            if v.truthy then
              let newCats : List String :=
                match v with
                | .arr xs => xs
                | _ => []
              let oldCats : List String :=
                match old.categories with
                | .arr xs => xs
                | _ => []
              { data with categories := some (.arr (dedupFirst (oldCats ++ newCats))) }
            else data
        | none => data
      let updated := applyPatch old data1
      (some updated, courseList.set idx updated)

/-- deleteCourse of the local-storage variant: splice the course out. -/
def deleteCourse (id : Nat) (courseList : List Course) : Bool × List Course :=
  match findCourseIndex id courseList with
  | none => (false, courseList)
  | some idx => (true, courseList.eraseIdx idx)

/-- getCourse: first course with strictly equal id, else null. -/
def getCourse (id : Nat) (courseList : List Course) : Option Course :=
  courseList.find? (fun c => c.id == id)

/-- listCourses of the local-storage variant: returns the catalog. -/
def listCourses (courseList : List Course) : List Course := courseList

/-- incrementVisits: null when the course is absent, otherwise the
incremented counter; the course object is updated in place in the
catalog. -/
def incrementVisits (courseId : Nat) (courseList : List Course) :
    Option Nat × List Course :=
  match findCourseIndex courseId courseList with
  | none => (none, courseList)
  | some idx =>
      let c := courseList.getD idx default
      (some (c.visits + 1), courseList.set idx { c with visits := c.visits + 1 })

/-- enrollUser: false when the course is absent or when some existing
student entry has a strictly equal userId; otherwise append
the pair of userId and the current timestamp. -/
def enrollUser (userId : JsVal) (courseId : Nat) (now : String)
    (courseList : List Course) : Bool × List Course :=
  match findCourseIndex courseId courseList with
  | none => (false, courseList)
  | some idx =>
      let c := courseList.getD idx default
      if c.students.any (fun s => s.1 == userId) then (false, courseList)
      else (true, courseList.set idx { c with students := c.students ++ [(userId, now)] })

/-- getAnalytics result shape. -/
structure Analytics where
  totalCourses : Nat
  totalEnrollments : Nat
  topCourses : List Course
  topVisited : List Course
deriving Repr, DecidableEq

/-- The JavaScript comparator of getAnalytics, `(b, a) => key(b) - key(a)`,
as a boolean descending order on a natural-valued key: a sorts no later
than b exactly when the key of b does not exceed the key of a. -/
def byDesc (key : Course → Nat) (a b : Course) : Bool := key b ≤ key a

/-- getAnalytics: length of the catalog, reduce-sum of student-list
lengths, and the first three courses of the catalog copied and stably
sorted descending by student count, respectively by visit count
(Array.prototype.sort is stable, modelled by mergeSort). -/
def getAnalytics (courseList : List Course) : Analytics :=
  { totalCourses := courseList.length
    totalEnrollments := courseList.foldl (fun acc c => acc + c.students.length) 0
    topCourses := (courseList.mergeSort (byDesc (fun c => c.students.length))).take 3
    topVisited := (courseList.mergeSort (byDesc (fun c => c.visits))).take 3 }

/-- A user record of the User Directory, as consumed by courseDeletion:
role and the enrolled-courses list, whose entries may be numbers or
strings. -/
structure User where
  uid : Nat
  role : String
  enrolledCourses : List JsVal
deriving Repr, DecidableEq

/-- A record of the Progress Tracker referencing a course. -/
structure ProgressRec where
  user : Nat
  course : Nat
deriving Repr, DecidableEq

/-- Modelled from the spec: `cleanupCourseData(courseId)` of the Progress
Tracker (progressSystem.js is not part of the sources) — idempotent
removal of all progress and certificate records referencing the course. -/
def cleanupCourseData (courseId : Nat) (recs : List ProgressRec) : List ProgressRec :=
  recs.filter (fun r => r.course ≠ courseId)

/-- Modelled from the spec: the composite effect of `listUsers` and
`updateUser` (userSystem.js is not part of the sources) under
courseDeletion's loop — for every user of role student, the
enrolled-courses list is filtered by the source predicate
comparing String(course) with String(courseId); other users are
untouched. -/
def removeFromEnrolled (courseId : Nat) (users : List User) : List User :=
  users.map (fun u =>
    if u.role = "student" then
      { u with enrolledCourses :=
          u.enrolledCourses.filter (fun course => course.toJsString ≠ toString courseId) }
    else u)

/-- The state touched by the cascading delete. -/
structure DeletionState where
  courses : List Course
  users : List User
  progress : List ProgressRec
deriving Repr, DecidableEq

end CourseSystem

namespace CourseSystem

/-- courseDeletion of the local-storage variant: deleteCourse first,
aborting on failure; then Progress Tracker cleanup and removal of the
course from every student user's enrolled-courses list. -/
def courseDeletion (courseId : Nat) (st : DeletionState) : Bool × DeletionState :=
  let r := deleteCourse courseId st.courses
  if !r.1 then (false, st)
  else
    (true,
      { courses := r.2
        users := removeFromEnrolled courseId st.users
        progress := cleanupCourseData courseId st.progress })

/-- What was found under the local-storage key at startup: absent
(getItem returns null, and JSON.parse of null yields null), a value on
which JSON.parse throws, or a persisted course array. -/
inductive StoredVal where
  | absent
  | corrupt
  | stored (l : List Course)
deriving Repr, DecidableEq

/-- loadCourses: JSON.parse of the stored string, with a null or falsy
parse defaulted to the empty array by the inner disjunction, and an
exception caught to the empty array. -/
def loadCourses : StoredVal → List Course
  | .absent => []
  | .corrupt => []
  | .stored l => l

/-- Truthiness of a JavaScript array value: arrays are objects, hence
truthy regardless of their contents. -/
def jsArrayTruthy (_ : List Course) : Bool := true

/-- The two example courses written literally in the initializer of
courseList. -/
def seedCourses : List Course :=
  [ { id := 1, title := "Multimedia Basics",
      description := some "Intro to multimedia", instructor := some "Jana",
      students := [], categories := .arr ["multimedia", "basics"],
      visits := 0, price := 200, duration := "3 Weeks" },
    { id := 2, title := "Graphic Design",
      description := some "Basics of GD", instructor := some "Sama",
      students := [], categories := .arr ["graphic", "design"],
      visits := 0, price := 250, duration := "4 Weeks" } ]

/-- The initializer of courseList: the result of loadCourses if it is
truthy, else the seed.  The disjunction tests the truthiness of the
array returned by loadCourses. -/
def courseListInit (sv : StoredVal) : List Course :=
  let loaded := loadCourses sv
  if jsArrayTruthy loaded then loaded else seedCourses

end CourseSystem

namespace Remote

/-- State of the remote-backed variant: the cached catalog and the number
of GET requests issued so far to the courses endpoint. -/
structure RemoteState where
  courseList : List Course
  fetchCount : Nat
deriving Repr, DecidableEq

/-- fetchCourses against a backend oracle giving the outcome of the k-th
GET request: none models a network error or a non-ok status (the catch
returns the empty array and leaves the cached catalog untouched), some
data models a successful fetch that replaces the cached catalog. -/
def fetchCourses (oracle : Nat → Option (List Course)) (st : RemoteState) :
    List Course × RemoteState :=
  match oracle st.fetchCount with
  | some data => (data, { courseList := data, fetchCount := st.fetchCount + 1 })
  | none => ([], { st with fetchCount := st.fetchCount + 1 })

/-- listCourses of the remote variant: fetch when the cached catalog is
empty, otherwise return the cache without touching the backend. -/
def listCourses (oracle : Nat → Option (List Course)) (st : RemoteState) :
    List Course × RemoteState :=
  if st.courseList.isEmpty then fetchCourses oracle st
  else (st.courseList, st)

/-- createCourse of the remote variant: after validation, fetch the
catalog when the cache is empty (for id generation), build the record,
POST it; postOk false models both a non-ok response and a thrown network
error, in both of which the function returns null without pushing. -/
def createCourse (oracle : Nat → Option (List Course)) (postOk : Bool)
    (course? : Option CourseInput) (st : RemoteState) :
    Option Course × RemoteState :=
  match course? with
  | none => (none, st)
  | some course =>
      if !course.titleTruthy then (none, st)
      else
        let st1 := if st.courseList.isEmpty then (fetchCourses oracle st).2 else st
        let newCourse :=
          buildCourse course (CourseSystem.generateUniqueCourseId st1.courseList)
        if postOk then
          (some newCourse, { st1 with courseList := st1.courseList ++ [newCourse] })
        else (none, st1)

end Remote

namespace CourseSystem

/-- Iterated createCourse: run a sequence of creation requests left to
right, collecting the ids assigned by the successful calls and the final
catalog. -/
def runCreates (inputs : List CourseInput) (courseList : List Course) :
    List Nat × List Course :=
  match inputs with
  | [] => ([], courseList)
  | i :: is =>
      let r := createCourse (some i) courseList
      match r.1 with
      | some c =>
          let rest := runCreates is r.2
          (c.id :: rest.1, rest.2)
      | none => runCreates is r.2

end CourseSystem

namespace Remote

/-- Iterated listCourses of the remote variant: run n successive calls,
returning the final state. -/
def runListCourses (oracle : Nat → Option (List Course)) :
    Nat → RemoteState → RemoteState
  | 0, st => st
  | n + 1, st => runListCourses oracle n (listCourses oracle st).2

end Remote

/-- The data-model invariant on students: in every course of the
catalog, a given userId value occurs at most once among the student
entries. -/
def studentIdsNodup (l : List Course) : Prop :=
  ∀ c ∈ l, (c.students.map Prod.fst).Nodup

instance : Decidable (studentIdsNodup l) := by
  unfold studentIdsNodup; infer_instance

instance : Inhabited CourseSystem.User :=
  ⟨{ uid := 0, role := "", enrolledCourses := [] }⟩

section Helpers

theorem le_foldl_max (l : List Nat) (a : Nat) : a ≤ l.foldl max a := by
  induction l generalizing a with
  | nil => simp
  | cons x xs ih => exact le_trans (le_max_left a x) (ih (max a x))

theorem mem_le_foldl_max (l : List Nat) (a x : Nat) (hx : x ∈ l) : x ≤ l.foldl max a := by
  induction l generalizing a with
  | nil => simp at hx
  | cons y ys ih =>
      rcases List.mem_cons.1 hx with rfl | h
      · exact le_trans (le_max_right a x) (le_foldl_max ys (max a x))
      · exact ih (max a y) h

theorem id_lt_generateUniqueCourseId (l : List Course) (c : Course) (hc : c ∈ l) :
    c.id < CourseSystem.generateUniqueCourseId l := by
  unfold CourseSystem.generateUniqueCourseId
  have hne : l.isEmpty = false := by
    cases l
    · simp at hc
    · rfl
  rw [hne]
  simp only [Bool.false_eq_true, if_false]
  have hle : c.id ≤ (l.map (fun c => c.id)).foldl max 0 :=
    mem_le_foldl_max _ 0 _ (List.mem_map_of_mem _ hc)
  omega

theorem buildCourse_id (i : CourseInput) (n : Nat) : (buildCourse i n).id = n := rfl

theorem createCourse_success (i : CourseInput) (l : List Course)
    (h : i.titleTruthy = true) :
    CourseSystem.createCourse (some i) l =
      (some (buildCourse i (CourseSystem.generateUniqueCourseId l)),
       l ++ [buildCourse i (CourseSystem.generateUniqueCourseId l)]) := by
  simp [CourseSystem.createCourse, h]

end Helpers

/-- C1, counterexample: the id of a deleted course is reused by the next
creation.  Creating courses titled a and b assigns ids 1 and 2; deleting
course 2 succeeds; the next creation assigns id 2 again, so an id is
reused after a deletion within the same session. -/
theorem c1_counterexample :
    let r1 := CourseSystem.createCourse (some { title := some "a" }) []
    let r2 := CourseSystem.createCourse (some { title := some "b" }) r1.2
    let rd := CourseSystem.deleteCourse 2 r2.2
    let r3 := CourseSystem.createCourse (some { title := some "c" }) rd.2
    r2.1.map Course.id = some 2 ∧ rd.1 = true ∧ r3.1.map Course.id = some 2 := by
  decide

/-- C1, amended: for every sequence of successful createCourse calls
with no intervening deletion, the assigned ids are strictly increasing
(hence unique and never reused within the sequence), the catalog keeps
pairwise distinct ids, every assigned id exceeds every id initially in
the catalog, and the first assigned id follows the max-plus-one rule of
generateUniqueCourseId (1 on an empty catalog); ids can however be
reused after a deletion. -/
theorem c1_createCourse_ids :
    ∀ (inputs : List CourseInput) (init : List Course),
    (∀ i ∈ inputs, i.titleTruthy = true) →
    (init.map Course.id).Nodup →
    List.Chain' (· < ·) (CourseSystem.runCreates inputs init).1
    ∧ ((CourseSystem.runCreates inputs init).2.map Course.id).Nodup
    ∧ (∀ a ∈ (CourseSystem.runCreates inputs init).1, ∀ c ∈ init, c.id < a)
    ∧ (∀ i is, inputs = i :: is →
        (CourseSystem.runCreates inputs init).1.head? =
          some (CourseSystem.generateUniqueCourseId init))
  | [], init, _, hnd => by
      refine ⟨by simp [CourseSystem.runCreates], by simpa [CourseSystem.runCreates], ?_, ?_⟩
      · intro a ha
        simp [CourseSystem.runCreates] at ha
      · intro i is h
        exact absurd h (by simp)
  | i :: is, init, htitles, hnd => by
      have hi : i.titleTruthy = true := htitles i (by simp)
      have his : ∀ j ∈ is, j.titleTruthy = true := fun j hj => htitles j (by simp [hj])
      have hrun : CourseSystem.runCreates (i :: is) init =
          (CourseSystem.generateUniqueCourseId init ::
            (CourseSystem.runCreates is
              (init ++ [buildCourse i (CourseSystem.generateUniqueCourseId init)])).1,
           (CourseSystem.runCreates is
              (init ++ [buildCourse i (CourseSystem.generateUniqueCourseId init)])).2) := by
        rw [CourseSystem.runCreates, createCourse_success i init hi]
        simp [buildCourse_id]
      have hnd2 : (((init ++ [buildCourse i (CourseSystem.generateUniqueCourseId init)]).map
          Course.id)).Nodup := by
        rw [List.map_append]
        refine List.nodup_append.2 ⟨hnd, by simp, ?_⟩
        intro x hx
        simp only [List.map_cons, List.map_nil, List.mem_cons, List.not_mem_nil, or_false]
        obtain ⟨c, hc, rfl⟩ := List.mem_map.1 hx
        have := id_lt_generateUniqueCourseId init c hc
        simp only [buildCourse_id]
        omega
      obtain ⟨ch, nd, lt, _⟩ := c1_createCourse_ids is
        (init ++ [buildCourse i (CourseSystem.generateUniqueCourseId init)]) his hnd2
      rw [hrun]
      refine ⟨?_, nd, ?_, ?_⟩
      · refine List.chain'_cons'.2 ⟨?_, ch⟩
        intro y hy
        have hymem := List.mem_of_mem_head? hy
        have := lt y hymem (buildCourse i (CourseSystem.generateUniqueCourseId init))
          (by simp)
        simpa [buildCourse_id] using this
      · intro a ha c hc
        rcases List.mem_cons.1 ha with rfl | ha2
        · exact id_lt_generateUniqueCourseId init c hc
        · exact lt a ha2 c (by simp [hc])
      · intro j js h
        simp

/-- C1 witness: the amended theorem applied to two concrete creations on
the empty catalog. -/
theorem c1_witness :
    List.Chain' (· < ·)
      (CourseSystem.runCreates [{ title := some "a" }, { title := some "b" }] []).1 :=
  (c1_createCourse_ids [{ title := some "a" }, { title := some "b" }] []
    (by decide) (by decide)).1

theorem dedupFirstAux_sublist (seen l : List String) :
    (dedupFirstAux seen l).Sublist l := by
  induction l generalizing seen with
  | nil => simp [dedupFirstAux]
  | cons x xs ih =>
      rw [dedupFirstAux]
      by_cases hx : x ∈ seen
      · simp only [hx, if_true]
        exact (ih seen).cons x
      · simp only [hx, if_false]
        exact (ih (x :: seen)).cons₂ x

theorem mem_dedupFirstAux (seen l : List String) (s : String) :
    s ∈ dedupFirstAux seen l ↔ s ∈ l ∧ s ∉ seen := by
  induction l generalizing seen with
  | nil => simp [dedupFirstAux]
  | cons x xs ih =>
      rw [dedupFirstAux]
      by_cases hx : x ∈ seen
      · simp only [hx, if_true, ih, List.mem_cons]
        constructor
        · rintro ⟨h1, h2⟩
          exact ⟨Or.inr h1, h2⟩
        · rintro ⟨h1 | h1, h2⟩
          · exact absurd hx (h1 ▸ h2)
          · exact ⟨h1, h2⟩
      · simp only [hx, if_false, List.mem_cons, ih]
        by_cases hsx : s = x
        · subst hsx
          simp [hx]
        · simp [hsx]

theorem dedupFirstAux_nodup (seen l : List String) :
    (dedupFirstAux seen l).Nodup := by
  induction l generalizing seen with
  | nil => simp [dedupFirstAux]
  | cons x xs ih =>
      rw [dedupFirstAux]
      by_cases hx : x ∈ seen
      · simp only [hx, if_true]
        exact ih seen
      · simp only [hx, if_false, List.nodup_cons]
        refine ⟨?_, ih (x :: seen)⟩
        intro hmem
        exact ((mem_dedupFirstAux (x :: seen) xs x).1 hmem).2 (by simp)

theorem dedupFirstAux_prefix (seen ys xs : List String) (hnd : ys.Nodup)
    (hdisj : ∀ y ∈ ys, y ∉ seen) :
    ys <+: dedupFirstAux seen (ys ++ xs) := by
  induction ys generalizing seen with
  | nil => simp
  | cons y ys ih =>
      rw [List.cons_append, dedupFirstAux]
      have hy : y ∉ seen := hdisj y (by simp)
      simp only [hy, if_false]
      rw [List.cons_prefix_cons]
      refine ⟨rfl, ih (y :: seen) (List.nodup_cons.1 hnd).2 ?_⟩
      intro z hz
      simp only [List.mem_cons, not_or]
      exact ⟨fun h => (List.nodup_cons.1 hnd).1 (h ▸ hz), hdisj z (by simp [hz])⟩

theorem dedupFirst_sublist (l : List String) : (dedupFirst l).Sublist l :=
  dedupFirstAux_sublist [] l

theorem mem_dedupFirst (l : List String) (s : String) :
    s ∈ dedupFirst l ↔ s ∈ l := by
  simp [dedupFirst, mem_dedupFirstAux]

theorem dedupFirst_nodup (l : List String) : (dedupFirst l).Nodup :=
  dedupFirstAux_nodup [] l

theorem dedupFirst_prefix (ys xs : List String) (hnd : ys.Nodup) :
    ys <+: dedupFirst (ys ++ xs) :=
  dedupFirstAux_prefix [] ys xs hnd (by simp)

theorem dedupFirst_of_nodup (ys : List String) (hnd : ys.Nodup) :
    dedupFirst ys = ys := by
  have h1 : ys <+: dedupFirst ys := by
    have := dedupFirst_prefix ys [] hnd
    simpa using this
  have h2 : (dedupFirst ys).Sublist ys := dedupFirst_sublist ys
  exact (h2.eq_of_length (le_antisymm h2.length_le h1.length_le)).symm ▸ rfl

/-- C2, counterexample: a falsy non-array patch.categories is not
treated as an empty set; it bypasses the union branch and the shallow
merge overwrites the existing categories with the raw falsy value.
Editing a course having category y with a patch whose categories field
is the empty string yields categories equal to that empty string, not
the unchanged set containing y. -/
theorem c2_counterexample :
    (CourseSystem.editCourse 1 { categories := some (.str "") }
        [{ id := 1, title := "t", categories := .arr ["y"] }]).1.map Course.categories
      = some (.str "")
    ∧ (CourseSystem.editCourse 1 { categories := some (.str "") }
        [{ id := 1, title := "t", categories := .arr ["y"] }]).1.map Course.categories
      ≠ some (.arr ["y"]) := by
  decide

/-- C2, amended: on an existing course whose categories are the array
ys, editCourse with an array patch.categories sets the categories to the
first-seen-order union of ys with the new entries: a list without
duplicates, a subsequence of the concatenation, containing exactly the
members of the concatenation, and extending ys in order when ys itself
had no duplicates.  A truthy non-array patch.categories is sent to the
empty array by the isArray test, so the categories become the
de-duplicated old set (unchanged whenever it had no duplicates).  A
falsy patch.categories skips the union branch entirely and overwrites
the categories with the raw falsy value. -/
theorem c2_editCourse_categories (id : Nat) (data : CourseInput) (l : List Course)
    (idx : Nat) (ys : List String)
    (hfind : CourseSystem.findCourseIndex id l = some idx)
    (hold : (l.getD idx default).categories = .arr ys) :
    (∀ xs, data.categories = some (.arr xs) →
        (CourseSystem.editCourse id data l).1.map Course.categories
          = some (.arr (dedupFirst (ys ++ xs)))
        ∧ (dedupFirst (ys ++ xs)).Nodup
        ∧ (dedupFirst (ys ++ xs)).Sublist (ys ++ xs)
        ∧ (∀ s, s ∈ dedupFirst (ys ++ xs) ↔ s ∈ ys ++ xs)
        ∧ (ys.Nodup → ys <+: dedupFirst (ys ++ xs)))
    ∧ (∀ v, data.categories = some v → v.truthy = true → (∀ xs, v ≠ .arr xs) →
        (CourseSystem.editCourse id data l).1.map Course.categories
          = some (.arr (dedupFirst ys))
        ∧ (ys.Nodup → (CourseSystem.editCourse id data l).1.map Course.categories
            = some (.arr ys)))
    ∧ (∀ v, data.categories = some v → v.truthy = false →
        (CourseSystem.editCourse id data l).1.map Course.categories = some v) := by
  refine ⟨?_, ?_, ?_⟩
  · intro xs hxs
    have hres : (CourseSystem.editCourse id data l).1.map Course.categories
        = some (.arr (dedupFirst (ys ++ xs))) := by
      simp only [CourseSystem.editCourse, hfind, hxs, hold, JsVal.truthy, applyPatch,
        if_true, Option.map_some']
    exact ⟨hres, dedupFirst_nodup _, dedupFirst_sublist _,
      fun s => mem_dedupFirst _ s, fun hnd => dedupFirst_prefix ys xs hnd⟩
  · intro v hv htruthy hnotarr
    have hres : (CourseSystem.editCourse id data l).1.map Course.categories
        = some (.arr (dedupFirst ys)) := by
      cases v with
      | null => simp [JsVal.truthy] at htruthy
      | bool b =>
          simp only [JsVal.truthy] at htruthy
          subst htruthy
          simp only [CourseSystem.editCourse, hfind, hv, hold, JsVal.truthy, applyPatch,
            if_true, Option.map_some', List.append_nil]
      | num n =>
          simp only [JsVal.truthy] at htruthy
          simp only [CourseSystem.editCourse, hfind, hv, hold, JsVal.truthy, htruthy,
            applyPatch, if_true, Option.map_some', List.append_nil]
      | str s =>
          simp only [JsVal.truthy] at htruthy
          simp only [CourseSystem.editCourse, hfind, hv, hold, JsVal.truthy, htruthy,
            applyPatch, if_true, Option.map_some', List.append_nil]
      | arr zs => exact absurd rfl (hnotarr zs)
    refine ⟨hres, fun hnd => ?_⟩
    rw [hres, dedupFirst_of_nodup ys hnd]
  · intro v hv hfalsy
    cases v with
    | null =>
        simp only [CourseSystem.editCourse, hfind, hv, JsVal.truthy, applyPatch,
          Bool.false_eq_true, if_false, Option.map_some']
    | bool b =>
        simp only [JsVal.truthy] at hfalsy
        subst hfalsy
        simp only [CourseSystem.editCourse, hfind, hv, JsVal.truthy, applyPatch,
          Bool.false_eq_true, if_false, Option.map_some']
    | num n =>
        simp only [JsVal.truthy] at hfalsy
        simp only [CourseSystem.editCourse, hfind, hv, JsVal.truthy, hfalsy, applyPatch,
          Bool.false_eq_true, if_false, Option.map_some']
    | str s =>
        simp only [JsVal.truthy] at hfalsy
        simp only [CourseSystem.editCourse, hfind, hv, JsVal.truthy, hfalsy, applyPatch,
          Bool.false_eq_true, if_false, Option.map_some']
    | arr zs => simp [JsVal.truthy] at hfalsy

/-- C2 witness: the amended theorem at a concrete catalog: a course with
category y patched with category x gets categories y then x. -/
theorem c2_witness :
    (CourseSystem.editCourse 1 { categories := some (.arr ["x"]) }
        [{ id := 1, title := "t", categories := .arr ["y"] }]).1.map Course.categories
      = some (.arr ["y", "x"]) := by
  have h := (c2_editCourse_categories 1 { categories := some (.arr ["x"]) }
      [{ id := 1, title := "t", categories := .arr ["y"] }] 0 ["y"]
      (by decide) (by decide)).1 ["x"] rfl
  rw [h.1]
  decide

/-- C3, counterexample: a createCourse call whose backend write fails
does return null, but when the cached catalog was empty the preceding
catalog fetch has already replaced the local catalog, so the local
catalog is not left unchanged. -/
theorem c3_counterexample :
    let st0 : Remote.RemoteState := { courseList := [], fetchCount := 0 }
    let r := Remote.createCourse (fun _ => some [{ id := 7, title := "srv" }]) false
        (some { title := some "a" }) st0
    r.1 = none ∧ r.2.courseList ≠ st0.courseList := by
  decide

/-- C3, amended: when the backend write fails, createCourse of the
remote variant returns null and appends nothing: if the cache was
non-empty the whole state is untouched, and if it was empty the catalog
equals exactly the result of the initial fetch.  The new record is
appended only on a successful acknowledgment: the successful run differs
from the failed one precisely by the appended record. -/
theorem c3_createCourse_backend_failure (oracle : Nat → Option (List Course))
    (course : CourseInput) (st : Remote.RemoteState)
    (htitle : course.titleTruthy = true) :
    (Remote.createCourse oracle false (some course) st).1 = none
    ∧ (st.courseList ≠ [] → (Remote.createCourse oracle false (some course) st).2 = st)
    ∧ (st.courseList = [] →
        (Remote.createCourse oracle false (some course) st).2.courseList
          = (Remote.fetchCourses oracle st).2.courseList)
    ∧ (∃ c, (Remote.createCourse oracle true (some course) st).1 = some c
        ∧ (Remote.createCourse oracle true (some course) st).2.courseList
          = (Remote.createCourse oracle false (some course) st).2.courseList ++ [c]) := by
  by_cases hemp : st.courseList.isEmpty
  · have hnil : st.courseList = [] := List.isEmpty_iff.1 hemp
    refine ⟨?_, ?_, ?_, ?_⟩
    · simp [Remote.createCourse, htitle, hemp]
    · intro h
      exact absurd hnil h
    · intro _
      simp [Remote.createCourse, htitle, hemp]
    · exact ⟨buildCourse course (CourseSystem.generateUniqueCourseId
          (Remote.fetchCourses oracle st).2.courseList),
        by simp [Remote.createCourse, htitle, hemp],
        by simp [Remote.createCourse, htitle, hemp]⟩
  · have hne : ¬ st.courseList = [] := fun h => hemp (by simp [h])
    refine ⟨?_, ?_, ?_, ?_⟩
    · simp [Remote.createCourse, htitle, hemp]
    · intro _
      simp [Remote.createCourse, htitle, hemp]
    · intro h
      exact absurd h hne
    · exact ⟨buildCourse course (CourseSystem.generateUniqueCourseId st.courseList),
        by simp [Remote.createCourse, htitle, hemp],
        by simp [Remote.createCourse, htitle, hemp]⟩

/-- C3 witness: the amended theorem at a non-empty cached catalog. -/
theorem c3_witness :
    (Remote.createCourse (fun _ => some []) false (some { title := some "a" })
        { courseList := [{ id := 1, title := "x" }], fetchCount := 0 }).1 = none :=
  (c3_createCourse_backend_failure (fun _ => some []) { title := some "a" }
    { courseList := [{ id := 1, title := "x" }], fetchCount := 0 } (by decide)).1

/-- C6, counterexample: when the backend returns an empty catalog, every
listCourses call fetches again, because the guard is emptiness of the
cache rather than a loaded flag: two successive calls on a fresh state
issue two loads. -/
theorem c6_counterexample :
    (Remote.runListCourses (fun _ => some []) 2
        { courseList := [], fetchCount := 0 }).fetchCount = 2 := by
  rfl

/-- C6, amended: a listCourses call fetches exactly when the cached
catalog is empty: on a non-empty cache any number of successive calls
leaves the state untouched (no further load is ever issued), a call on a
non-empty cache returns the cache itself, and a call on an empty cache
issues exactly one load. -/
theorem c6_listCourses_cache (oracle : Nat → Option (List Course))
    (st : Remote.RemoteState) :
    (st.courseList ≠ [] → ∀ n, Remote.runListCourses oracle n st = st)
    ∧ (st.courseList ≠ [] → Remote.listCourses oracle st = (st.courseList, st))
    ∧ (st.courseList = [] →
        (Remote.listCourses oracle st).2.fetchCount = st.fetchCount + 1) := by
  have hcall : st.courseList ≠ [] → Remote.listCourses oracle st = (st.courseList, st) := by
    intro h
    have : st.courseList.isEmpty = false := by
      cases hc : st.courseList
      · exact absurd hc h
      · simp [hc]
    simp [Remote.listCourses, this]
  refine ⟨?_, hcall, ?_⟩
  · intro h n
    induction n with
    | zero => rfl
    | succ n ih =>
        rw [Remote.runListCourses, hcall h]
        exact ih
  · intro h
    have : st.courseList.isEmpty = true := by simp [h]
    rw [Remote.listCourses]
    simp only [this, if_true]
    rw [Remote.fetchCourses]
    cases oracle st.fetchCount <;> rfl

/-- C6 witness: three calls on a state holding one cached course change
nothing. -/
theorem c6_witness :
    Remote.runListCourses (fun _ => some []) 3
        { courseList := [{ id := 1, title := "x" }], fetchCount := 1 }
      = { courseList := [{ id := 1, title := "x" }], fetchCount := 1 } :=
  (c6_listCourses_cache (fun _ => some [])
    { courseList := [{ id := 1, title := "x" }], fetchCount := 1 }).1 (by decide) 3

/-- C7: in the local-storage variant the built-in seed is dead code.
loadCourses returns an array in every case (the inner disjunction
already defaults a null or falsy parse to the empty array, and the catch
returns the empty array), and a JavaScript array is truthy even when
empty, so the outer disjunction never selects the seed: with no
persisted data the catalog initializes to the empty list, not to the
two example courses; persisted data is used as is, and a corrupt store
falls back to the empty list without throwing. -/
theorem c7_seed_dead :
    CourseSystem.courseListInit .absent = []
    ∧ CourseSystem.courseListInit .absent ≠ CourseSystem.seedCourses
    ∧ CourseSystem.courseListInit .corrupt = []
    ∧ (∀ l, CourseSystem.courseListInit (.stored l) = l) := by
  exact ⟨rfl, by decide, rfl, fun l => rfl⟩

theorem deleteCourse_not_mem (id : Nat) (l : List Course)
    (hnd : (l.map Course.id).Nodup) :
    ∀ c ∈ (CourseSystem.deleteCourse id l).2, c.id ≠ id := by
  induction l with
  | nil =>
      intro c hc
      simp [CourseSystem.deleteCourse, CourseSystem.findCourseIndex] at hc
  | cons a as ih =>
      rw [List.map_cons, List.nodup_cons] at hnd
      by_cases ha : (a.id == id) = true
      · have haid : a.id = id := by simpa using ha
        have hfind : CourseSystem.findCourseIndex id (a :: as) = some 0 := by
          simp [CourseSystem.findCourseIndex, List.findIdx?_cons, ha]
        intro c hc
        rw [CourseSystem.deleteCourse, hfind] at hc
        simp only [List.eraseIdx_cons_zero] at hc
        intro hcid
        exact hnd.1 (haid ▸ hcid ▸ List.mem_map_of_mem Course.id hc)
      · have hstep : CourseSystem.findCourseIndex id (a :: as)
            = (CourseSystem.findCourseIndex id as).map (fun j => j + 1) := by
          simp only [CourseSystem.findCourseIndex, List.findIdx?_cons, ha, if_false]
          exact List.findIdx?_start_succ
        have haid : a.id ≠ id := by simpa using ha
        cases hfas : CourseSystem.findCourseIndex id as with
        | none =>
            have hnone : CourseSystem.findCourseIndex id (a :: as) = none := by
              rw [hstep, hfas]; rfl
            intro c hc
            rw [CourseSystem.deleteCourse, hnone] at hc
            rcases List.mem_cons.1 hc with rfl | hc2
            · exact haid
            · have := List.findIdx?_eq_none_iff.1 hfas c hc2
              simpa using this
        | some j =>
            have hsome : CourseSystem.findCourseIndex id (a :: as) = some (j + 1) := by
              rw [hstep, hfas]; rfl
            intro c hc
            rw [CourseSystem.deleteCourse, hsome] at hc
            simp only [List.eraseIdx_cons_succ] at hc
            rcases List.mem_cons.1 hc with rfl | hc2
            · exact haid
            · have := ih hnd.2 c
              rw [CourseSystem.deleteCourse, hfas] at this
              exact this hc2

theorem getCourse_none_findIdx (id : Nat) (l : List Course)
    (h : CourseSystem.getCourse id l = none) :
    CourseSystem.findCourseIndex id l = none := by
  rw [CourseSystem.getCourse, List.find?_eq_none] at h
  rw [CourseSystem.findCourseIndex, List.findIdx?_eq_none_iff]
  intro c hc
  exact Bool.not_eq_true _ ▸ h c hc

theorem getCourse_some_findIdx (id : Nat) (l : List Course) (c0 : Course)
    (h : CourseSystem.getCourse id l = some c0) :
    ∃ idx, CourseSystem.findCourseIndex id l = some idx := by
  rw [CourseSystem.getCourse] at h
  have hmem := List.find?_some h
  have hany : l.any (fun c => c.id == id) = true :=
    List.any_eq_true.2 ⟨c0, List.mem_of_find?_eq_some h, hmem⟩
  have : (l.findIdx? (fun c => c.id == id)).isSome = l.any (fun c => c.id == id) :=
    List.findIdx?_isSome
  rw [hany] at this
  rw [CourseSystem.findCourseIndex]
  exact Option.isSome_iff_exists.1 this

/-- C4: courseDeletion first deletes the course; if no course with that
id exists the call returns false with the whole state (catalog, users,
progress records) untouched.  If a course with the id exists the call
returns true, the course id is gone from listCourses (given the
catalog's unique-id invariant), the Progress Tracker cleanup ran (the
resulting progress records are the cleaned ones and none references the
course), and every student user's enrolled-courses list has no entry
whose string form equals that of the deleted id. -/
theorem c4_courseDeletion (courseId : Nat) (st : CourseSystem.DeletionState)
    (hnd : (st.courses.map Course.id).Nodup) :
    (CourseSystem.getCourse courseId st.courses = none →
        CourseSystem.courseDeletion courseId st = (false, st))
    ∧ (∀ c0, CourseSystem.getCourse courseId st.courses = some c0 →
        (CourseSystem.courseDeletion courseId st).1 = true
        ∧ (∀ c ∈ CourseSystem.listCourses
            (CourseSystem.courseDeletion courseId st).2.courses, c.id ≠ courseId)
        ∧ (CourseSystem.courseDeletion courseId st).2.progress
            = CourseSystem.cleanupCourseData courseId st.progress
        ∧ (∀ r ∈ (CourseSystem.courseDeletion courseId st).2.progress,
            r.course ≠ courseId)
        ∧ (∀ u ∈ (CourseSystem.courseDeletion courseId st).2.users,
            u.role = "student" →
            ∀ e ∈ u.enrolledCourses, e.toJsString ≠ toString courseId)) := by
  constructor
  · intro hnone
    have hfind := getCourse_none_findIdx courseId st.courses hnone
    simp [CourseSystem.courseDeletion, CourseSystem.deleteCourse, hfind]
  · intro c0 hsome
    obtain ⟨idx, hfind⟩ := getCourse_some_findIdx courseId st.courses c0 hsome
    have hdel : CourseSystem.deleteCourse courseId st.courses
        = (true, st.courses.eraseIdx idx) := by
      rw [CourseSystem.deleteCourse, hfind]
    have hrun : CourseSystem.courseDeletion courseId st
        = (true,
           { courses := st.courses.eraseIdx idx
             users := CourseSystem.removeFromEnrolled courseId st.users
             progress := CourseSystem.cleanupCourseData courseId st.progress }) := by
      rw [CourseSystem.courseDeletion, hdel]
      rfl
    refine ⟨by rw [hrun], ?_, by rw [hrun], ?_, ?_⟩
    · intro c hc
      rw [hrun] at hc
      have := deleteCourse_not_mem courseId st.courses hnd c
      rw [hdel] at this
      exact this hc
    · intro r hr
      rw [hrun] at hr
      simp only [CourseSystem.cleanupCourseData] at hr
      have := (List.mem_filter.1 hr).2
      simpa using this
    · intro u hu hrole e he
      rw [hrun] at hu
      simp only [CourseSystem.removeFromEnrolled] at hu
      obtain ⟨u0, hu0, hmap⟩ := List.mem_map.1 hu
      by_cases hr0 : u0.role = "student"
      · rw [if_pos hr0] at hmap
        subst hmap
        have := (List.mem_filter.1 he).2
        simpa using this
      · rw [if_neg hr0] at hmap
        subst hmap
        exact absurd hrole hr0

/-- C4 witness: a catalog holding course 5, a student enrolled in 5 (as
the string form) and in 3, and one progress record for course 5. -/
theorem c4_witness :
    (CourseSystem.courseDeletion 5
      { courses := [{ id := 5, title := "t" }]
        users := [{ uid := 1, role := "student",
                    enrolledCourses := [JsVal.str "5", JsVal.num 3] }]
        progress := [{ user := 1, course := 5 }] }).1 = true :=
  ((c4_courseDeletion 5
      { courses := [{ id := 5, title := "t" }]
        users := [{ uid := 1, role := "student",
                    enrolledCourses := [JsVal.str "5", JsVal.num 3] }]
        progress := [{ user := 1, course := 5 }] } (by decide)).2
    { id := 5, title := "t" } (by decide)).1

theorem foldl_add_eq_sum (f : Course → Nat) (l : List Course) (a : Nat) :
    l.foldl (fun acc c => acc + f c) a = a + (l.map f).sum := by
  induction l generalizing a with
  | nil => simp
  | cons x xs ih =>
      rw [List.foldl_cons, ih, List.map_cons, List.sum_cons]
      omega

theorem byDesc_trans (key : Course → Nat) :
    ∀ a b c, CourseSystem.byDesc key a b → CourseSystem.byDesc key b c →
      CourseSystem.byDesc key a c := by
  intro a b c hab hbc
  simp only [CourseSystem.byDesc, decide_eq_true_eq] at *
  omega

theorem byDesc_total (key : Course → Nat) :
    ∀ a b, CourseSystem.byDesc key a b || CourseSystem.byDesc key b a := by
  intro a b
  simp only [CourseSystem.byDesc, Bool.or_eq_true, decide_eq_true_eq]
  omega

/-- C5: getAnalytics reports the catalog length, the sum of the
student-list lengths, and the first three courses of the catalog sorted
by enrollment count, respectively by visit count, descending: the sorted
list is a permutation of the catalog, is pairwise descending in the key,
and is stable (any two tied courses keep their catalog order), and the
top lists are its first three entries; on the empty catalog everything
is zero or empty.  getAnalytics consumes the catalog read-only: it is a
pure function of the list. -/
theorem c5_getAnalytics (l : List Course) :
    (CourseSystem.getAnalytics l).totalCourses = l.length
    ∧ (CourseSystem.getAnalytics l).totalEnrollments
        = (l.map (fun c => c.students.length)).sum
    ∧ ((l.mergeSort (CourseSystem.byDesc (fun c => c.students.length))).Perm l
        ∧ (l.mergeSort (CourseSystem.byDesc (fun c => c.students.length))).Pairwise
            (fun a b => b.students.length ≤ a.students.length)
        ∧ (∀ a b, a.students.length = b.students.length →
            ([a, b]).Sublist l →
            ([a, b]).Sublist
              (l.mergeSort (CourseSystem.byDesc (fun c => c.students.length))))
        ∧ (CourseSystem.getAnalytics l).topCourses
            = (l.mergeSort (CourseSystem.byDesc (fun c => c.students.length))).take 3)
    ∧ ((l.mergeSort (CourseSystem.byDesc (fun c => c.visits))).Perm l
        ∧ (l.mergeSort (CourseSystem.byDesc (fun c => c.visits))).Pairwise
            (fun a b => b.visits ≤ a.visits)
        ∧ (∀ a b, a.visits = b.visits →
            ([a, b]).Sublist l →
            ([a, b]).Sublist (l.mergeSort (CourseSystem.byDesc (fun c => c.visits))))
        ∧ (CourseSystem.getAnalytics l).topVisited
            = (l.mergeSort (CourseSystem.byDesc (fun c => c.visits))).take 3)
    ∧ CourseSystem.getAnalytics [] =
        { totalCourses := 0, totalEnrollments := 0, topCourses := [], topVisited := [] } := by
  refine ⟨rfl, ?_, ⟨?_, ?_, ?_, rfl⟩, ⟨?_, ?_, ?_, rfl⟩,
    by simp [CourseSystem.getAnalytics, List.mergeSort]⟩
  · rw [CourseSystem.getAnalytics]
    simpa using foldl_add_eq_sum (fun c => c.students.length) l 0
  · exact List.mergeSort_perm l _
  · have h := List.sorted_mergeSort
      (byDesc_trans (fun c => c.students.length))
      (byDesc_total (fun c => c.students.length)) l
    refine h.imp ?_
    intro a b hab
    simpa [CourseSystem.byDesc] using hab
  · intro a b htie hsub
    exact List.pair_sublist_mergeSort
      (byDesc_trans (fun c => c.students.length))
      (byDesc_total (fun c => c.students.length))
      (by simp [CourseSystem.byDesc, htie]) hsub
  · exact List.mergeSort_perm l _
  · have h := List.sorted_mergeSort
      (byDesc_trans (fun c => c.visits)) (byDesc_total (fun c => c.visits)) l
    refine h.imp ?_
    intro a b hab
    simpa [CourseSystem.byDesc] using hab
  · intro a b htie hsub
    exact List.pair_sublist_mergeSort
      (byDesc_trans (fun c => c.visits)) (byDesc_total (fun c => c.visits))
      (by simp [CourseSystem.byDesc, htie]) hsub

/-- C5 witness: the spec's end-to-end example: course A with three
students and five visits, course B with one student and nine visits:
topCourses is A then B, topVisited is B then A, totalEnrollments is 4. -/
theorem c5_witness :
    (CourseSystem.getAnalytics
      [ { id := 1, title := "A",
          students := [(.num 1, "d"), (.num 2, "d"), (.num 3, "d")], visits := 5 },
        { id := 2, title := "B", students := [(.num 4, "d")], visits := 9 } ]
      ).totalEnrollments = 4
    ∧ (CourseSystem.getAnalytics
      [ { id := 1, title := "A",
          students := [(.num 1, "d"), (.num 2, "d"), (.num 3, "d")], visits := 5 },
        { id := 2, title := "B", students := [(.num 4, "d")], visits := 9 } ]
      ).topCourses.map Course.id = [1, 2]
    ∧ (CourseSystem.getAnalytics
      [ { id := 1, title := "A",
          students := [(.num 1, "d"), (.num 2, "d"), (.num 3, "d")], visits := 5 },
        { id := 2, title := "B", students := [(.num 4, "d")], visits := 9 } ]
      ).topVisited.map Course.id = [2, 1] := by
  have h := c5_getAnalytics
    [ { id := 1, title := "A",
        students := [(.num 1, "d"), (.num 2, "d"), (.num 3, "d")], visits := 5 },
      { id := 2, title := "B", students := [(.num 4, "d")], visits := 9 } ]
  refine ⟨?_, ?_, ?_⟩
  · rw [h.2.1]
    decide
  · rw [h.2.2.1.2.2.2]
    simp [List.mergeSort, CourseSystem.byDesc]
  · rw [h.2.2.2.1.2.2.2]
    simp [List.mergeSort, CourseSystem.byDesc]

theorem findCourseIndex_lt_length (id : Nat) (l : List Course) (idx : Nat)
    (h : CourseSystem.findCourseIndex id l = some idx) : idx < l.length := by
  rw [CourseSystem.findCourseIndex] at h
  obtain ⟨hlt, -, -⟩ := List.findIdx?_eq_some_iff_getElem.1 h
  exact hlt

theorem getD_mem_of_lt (l : List Course) (idx : Nat) (h : idx < l.length) :
    l.getD idx default ∈ l := by
  rw [List.getD_eq_getElem?_getD, List.getElem?_eq_getElem h]
  exact List.getElem_mem h

theorem editCourse_result_students (id : Nat) (data : CourseInput) (l : List Course)
    (idx : Nat) (hfind : CourseSystem.findCourseIndex id l = some idx) :
    ∃ u, (CourseSystem.editCourse id data l).2 = l.set idx u
      ∧ u.students = data.students.getD ((l.getD idx default).students) := by
  rw [CourseSystem.editCourse, hfind]
  cases hdc : data.categories with
  | none => exact ⟨_, rfl, rfl⟩
  | some v =>
      by_cases ht : v.truthy
      · simp only [ht, if_true]
        exact ⟨_, rfl, rfl⟩
      · simp only [ht, Bool.false_eq_true, if_false]
        exact ⟨_, rfl, rfl⟩

/-- C8, counterexample: createCourse keeps a caller-supplied students
array as is, so creating a course whose students list names the same
userId twice yields a catalog violating the at-most-once invariant. -/
theorem c8_counterexample :
    studentIdsNodup ([] : List Course)
    ∧ ¬ studentIdsNodup
        (CourseSystem.createCourse
          (some { title := some "t",
                  students := some [(.num 1, "d"), (.num 1, "d")] }) []).2 := by
  decide

/-- C8, amended: the at-most-once invariant on student userIds is
preserved by every operation provided every students list supplied by
the caller (to createCourse, or through an editCourse patch) itself has
pairwise distinct userIds; enrollUser, incrementVisits, deleteCourse and
courseDeletion preserve it unconditionally (enrollUser's guard uses
strict equality on the stored userId values). -/
theorem c8_invariant (l : List Course) (hinv : studentIdsNodup l) :
    (∀ (c? : Option CourseInput),
        (∀ c s, c? = some c → c.students = some s → (s.map Prod.fst).Nodup) →
        studentIdsNodup (CourseSystem.createCourse c? l).2)
    ∧ (∀ (id : Nat) (data : CourseInput),
        (∀ s, data.students = some s → (s.map Prod.fst).Nodup) →
        studentIdsNodup (CourseSystem.editCourse id data l).2)
    ∧ (∀ (userId : JsVal) (courseId : Nat) (now : String),
        studentIdsNodup (CourseSystem.enrollUser userId courseId now l).2)
    ∧ (∀ courseId : Nat, studentIdsNodup (CourseSystem.incrementVisits courseId l).2)
    ∧ (∀ id : Nat, studentIdsNodup (CourseSystem.deleteCourse id l).2)
    ∧ (∀ (id : Nat) (users : List CourseSystem.User)
        (prog : List CourseSystem.ProgressRec),
        studentIdsNodup
          (CourseSystem.courseDeletion id
            { courses := l, users := users, progress := prog }).2.courses) := by
  have herase : ∀ id : Nat, studentIdsNodup (CourseSystem.deleteCourse id l).2 := by
    intro id c hc
    rw [CourseSystem.deleteCourse] at hc
    cases hfind : CourseSystem.findCourseIndex id l with
    | none =>
        rw [hfind] at hc
        exact hinv c hc
    | some idx =>
        rw [hfind] at hc
        exact hinv c ((List.eraseIdx_sublist l idx).mem hc)
  refine ⟨?_, ?_, ?_, ?_, herase, ?_⟩
  · intro c? hnd c hc
    cases c? with
    | none => exact hinv c hc
    | some ci =>
        rw [CourseSystem.createCourse] at hc
        by_cases ht : ci.titleTruthy
        · simp only [ht, Bool.not_true, Bool.false_eq_true, if_false] at hc
          rcases List.mem_append.1 hc with hmem | hmem
          · exact hinv c hmem
          · have hcb : c = buildCourse ci (CourseSystem.generateUniqueCourseId l) := by
              simpa using hmem
            subst hcb
            rw [buildCourse]
            cases hs : ci.students with
            | none => simp
            | some s =>
                simp only [Option.getD_some]
                exact hnd ci s rfl hs
        · simp only [ht, Bool.not_false, if_true] at hc
          exact hinv c hc
  · intro id data hnd c hc
    cases hfind : CourseSystem.findCourseIndex id l with
    | none =>
        rw [CourseSystem.editCourse, hfind] at hc
        exact hinv c hc
    | some idx =>
        obtain ⟨u, hset, hstu⟩ := editCourse_result_students id data l idx hfind
        rw [hset] at hc
        rcases List.mem_or_eq_of_mem_set hc with hmem | rfl
        · exact hinv c hmem
        · rw [hstu]
          cases hs : data.students with
          | none =>
              simp only [Option.getD_none]
              exact hinv _ (getD_mem_of_lt l idx (findCourseIndex_lt_length id l idx hfind))
          | some s =>
              simp only [Option.getD_some]
              exact hnd s hs
  · intro userId courseId now c hc
    cases hfind : CourseSystem.findCourseIndex courseId l with
    | none =>
        rw [CourseSystem.enrollUser, hfind] at hc
        exact hinv c hc
    | some idx =>
        rw [CourseSystem.enrollUser, hfind] at hc
        by_cases hguard :
            ((l.getD idx default).students.any (fun s => s.1 == userId)) = true
        · simp only [hguard, if_true] at hc
          exact hinv c hc
        · simp only [hguard, Bool.false_eq_true, if_false] at hc
          rcases List.mem_or_eq_of_mem_set hc with hmem | rfl
          · exact hinv c hmem
          · simp only [List.map_append, List.map_cons, List.map_nil]
            rw [List.nodup_append]
            have hold : ((l.getD idx default).students.map Prod.fst).Nodup :=
              hinv _ (getD_mem_of_lt l idx (findCourseIndex_lt_length courseId l idx hfind))
            refine ⟨hold, by simp, ?_⟩
            intro x hx
            simp only [List.mem_cons, List.not_mem_nil, or_false]
            obtain ⟨s, hs, rfl⟩ := List.mem_map.1 hx
            have hall := List.any_eq_false.1 (Bool.not_eq_true _ ▸ hguard) s hs
            intro hcontra
            rw [hcontra] at hall
            simp at hall
  · intro courseId c hc
    cases hfind : CourseSystem.findCourseIndex courseId l with
    | none =>
        rw [CourseSystem.incrementVisits, hfind] at hc
        exact hinv c hc
    | some idx =>
        rw [CourseSystem.incrementVisits, hfind] at hc
        rcases List.mem_or_eq_of_mem_set hc with hmem | rfl
        · exact hinv c hmem
        · have hold :=
            hinv _ (getD_mem_of_lt l idx (findCourseIndex_lt_length courseId l idx hfind))
          simpa using hold
  · intro id users prog c hc
    rw [CourseSystem.courseDeletion] at hc
    by_cases hdel : (CourseSystem.deleteCourse id l).1
    · simp only [hdel, Bool.not_true, Bool.false_eq_true, if_false] at hc
      exact herase id c hc
    · simp only [hdel, Bool.not_false, if_true] at hc
      exact hinv c hc

/-- C8 witness: the amended theorem at a one-course catalog with one
enrollment. -/
theorem c8_witness :
    studentIdsNodup
      (CourseSystem.enrollUser (.num 2) 1 "d2"
        [{ id := 1, title := "t", students := [(.num 1, "d1")] }]).2 :=
  (c8_invariant [{ id := 1, title := "t", students := [(.num 1, "d1")] }]
    (by decide)).2.2.1 (.num 2) 1 "d2"

theorem getD_set_self_course (l : List Course) (idx : Nat) (u : Course)
    (h : idx < l.length) : (l.set idx u).getD idx default = u := by
  rw [List.getD_eq_getElem?_getD, List.getElem?_set_self h]
  rfl

/-- C9: inside courseDeletion's pass over the student users, an
enrolled-course entry survives exactly when its string form differs from
the string form of the deleted course id: an entry stored as the string
"5" is removed when the course with numeric id 5 is deleted, and every
entry with a different string form is kept; the user keeps the student
role. -/
theorem c9_string_removal (courseId : Nat) (st : CourseSystem.DeletionState)
    (hdel : (CourseSystem.courseDeletion courseId st).1 = true)
    (i : Nat) (hi : i < st.users.length)
    (hrole : (st.users.getD i default).role = "student") :
    ((CourseSystem.courseDeletion courseId st).2.users.getD i default).role = "student"
    ∧ (∀ e,
        e ∈ ((CourseSystem.courseDeletion courseId st).2.users.getD i
          default).enrolledCourses
        ↔ (e ∈ (st.users.getD i default).enrolledCourses
            ∧ e.toJsString ≠ toString courseId)) := by
  by_cases hd : (CourseSystem.deleteCourse courseId st.courses).1
  · have hrun : (CourseSystem.courseDeletion courseId st).2.users
        = CourseSystem.removeFromEnrolled courseId st.users := by
      rw [CourseSystem.courseDeletion]
      simp only [hd, Bool.not_true, Bool.false_eq_true, if_false]
    have hget : (CourseSystem.removeFromEnrolled courseId st.users).getD i default
        = { st.users.getD i default with
            enrolledCourses := (st.users.getD i default).enrolledCourses.filter
              (fun course => course.toJsString ≠ toString courseId) } := by
      rw [CourseSystem.removeFromEnrolled, List.getD_eq_getElem?_getD,
        List.getElem?_map, List.getElem?_eq_getElem hi]
      rw [List.getD_eq_getElem?_getD, List.getElem?_eq_getElem hi]
      simp only [Option.map_some', Option.getD_some]
      rw [List.getD_eq_getElem?_getD, List.getElem?_eq_getElem hi] at hrole
      simp only [Option.getD_some] at hrole
      rw [if_pos hrole]
    rw [hrun, hget]
    refine ⟨hrole, ?_⟩
    intro e
    simp only [List.mem_filter, decide_not, Bool.not_eq_true', decide_eq_false_iff_not]
  · exfalso
    rw [CourseSystem.courseDeletion] at hdel
    simp only [hd, Bool.not_false, if_true] at hdel
    exact absurd hdel (by simp)

/-- C9 witness: deleting course 5 removes the string entry "5" from a
student's enrolled courses and keeps the entry 3. -/
theorem c9_witness :
    (JsVal.str "5") ∉
      ((CourseSystem.courseDeletion 5
        { courses := [{ id := 5, title := "t" }]
          users := [{ uid := 1, role := "student",
                      enrolledCourses := [JsVal.str "5", JsVal.num 3] }]
          progress := [] }).2.users.getD 0 default).enrolledCourses
    ∧ (JsVal.num 3) ∈
      ((CourseSystem.courseDeletion 5
        { courses := [{ id := 5, title := "t" }]
          users := [{ uid := 1, role := "student",
                      enrolledCourses := [JsVal.str "5", JsVal.num 3] }]
          progress := [] }).2.users.getD 0 default).enrolledCourses := by
  have h := c9_string_removal 5
    { courses := [{ id := 5, title := "t" }]
      users := [{ uid := 1, role := "student",
                  enrolledCourses := [JsVal.str "5", JsVal.num 3] }]
      progress := [] } (by decide) 0 (by decide) (by decide)
  constructor
  · intro hmem
    have := (h.2 (JsVal.str "5")).1 hmem
    exact this.2 (by decide)
  · exact (h.2 (JsVal.num 3)).2 ⟨by decide, by decide⟩

/-- C10, counterexample: the claim quantifies over every course whose
students contain the numeric userId; on a course where the string form
is additionally already enrolled, enrollUser with the string form
returns false instead of true. -/
theorem c10_counterexample :
    (CourseSystem.enrollUser (.str "5") 3 "d2"
        [{ id := 3, title := "t",
           students := [(.num 5, "d1"), (.str "5", "d0")] }]).1 = false := by
  decide

/-- C10, amended: enrollUser checks prior enrollment with strict,
type-sensitive equality on the stored userId values: on a course whose
students contain an entry with numeric userId n but no entry with its
string form, enrollUser of the string form succeeds and appends a second
entry, leaving the same person enrolled both as a number and as a
string. -/
theorem c10_enrollUser_strict (n : Int) (courseId : Nat) (now : String)
    (l : List Course) (idx : Nat)
    (hfind : CourseSystem.findCourseIndex courseId l = some idx)
    (hnum : JsVal.num n ∈ ((l.getD idx default).students.map Prod.fst))
    (hstr : JsVal.str (toString n) ∉ ((l.getD idx default).students.map Prod.fst)) :
    (CourseSystem.enrollUser (.str (toString n)) courseId now l).1 = true
    ∧ ((CourseSystem.enrollUser (.str (toString n)) courseId now l).2.getD idx
        default).students
      = (l.getD idx default).students ++ [(.str (toString n), now)]
    ∧ JsVal.num n ∈ (((CourseSystem.enrollUser (.str (toString n)) courseId now
        l).2.getD idx default).students.map Prod.fst)
    ∧ JsVal.str (toString n) ∈ (((CourseSystem.enrollUser (.str (toString n))
        courseId now l).2.getD idx default).students.map Prod.fst) := by
  have hlt := findCourseIndex_lt_length courseId l idx hfind
  have hguard : ((l.getD idx default).students.any
      (fun s => s.1 == JsVal.str (toString n))) = false := by
    rw [List.any_eq_false]
    intro s hs hcontra
    have hs1 : s.1 = JsVal.str (toString n) := by simpa using hcontra
    exact hstr (hs1 ▸ List.mem_map_of_mem Prod.fst hs)
  have hrun : CourseSystem.enrollUser (.str (toString n)) courseId now l
      = (true, l.set idx
          { l.getD idx default with
            students := (l.getD idx default).students ++ [(.str (toString n), now)] }) := by
    rw [CourseSystem.enrollUser, hfind]
    simp only [hguard, Bool.false_eq_true, if_false]
  have hget := getD_set_self_course l idx
    { l.getD idx default with
      students := (l.getD idx default).students ++ [(.str (toString n), now)] } hlt
  refine ⟨by rw [hrun], ?_, ?_, ?_⟩
  · rw [hrun]
    simp only [hget]
  · rw [hrun]
    simp only [hget, List.map_append, List.map_cons, List.map_nil, List.mem_append]
    exact Or.inl hnum
  · rw [hrun]
    simp only [hget, List.map_append, List.map_cons, List.map_nil, List.mem_append]
    exact Or.inr (by simp)

/-- C10 witness: a course with the numeric enrollment 5 accepts a second
enrollment under the string "5". -/
theorem c10_witness :
    (CourseSystem.enrollUser (.str (toString (5 : Int))) 3 "d2"
        [{ id := 3, title := "t", students := [(.num 5, "d1")] }]).1 = true :=
  (c10_enrollUser_strict 5 3 "d2"
    [{ id := 3, title := "t", students := [(.num 5, "d1")] }] 0
    (by decide) (by decide) (by decide)).1
